import Mathlib

/-!
Verification of the Research-Paper-Bot ingestion-and-retrieval pipeline.

Shallow embedding of the repository's core (src/rag/ingest.py,
src/rag/retriever.py, src/rag/chain.py, src/rag/pdf_processor_alt.py).
Text is embedded as `List Char`; Python dicts become structures; the
external Weaviate vector store and the embedding provider are modelled by
their contracts (filter semantics of where-clauses, an abstract similarity
ranking oracle, and an explicit up/down backend state for fallibility).
-/

set_option autoImplicit false

namespace RPB

/-- Text is embedded as a list of characters (Python `str`). -/
abbrev Text := List Char

/-- Characters removed by Python `str.strip()`. -/
def isWs (c : Char) : Bool :=
  c = ' ' || c = '\t' || c = '\n' || c = '\r' || c = '\x0b' || c = '\x0c'

/-- Left strip: drop leading whitespace (Python `lstrip`). -/
def ltrim (l : Text) : Text := l.dropWhile isWs

/-- Right strip: drop trailing whitespace (Python `rstrip`). -/
def rtrim (l : Text) : Text := (l.reverse.dropWhile isWs).reverse

/-- Python `str.strip()`. -/
def pyStrip (l : Text) : Text := rtrim (ltrim l)

/-- All non-whitespace characters of a text, in order: the whitespace
normalization used to compare texts "modulo whitespace". -/
def noWs (l : Text) : Text := l.filter (fun c => !isWs c)

/-- The character span `[a, b)` of a text. -/
def slice (l : Text) (a b : Nat) : Text := (l.drop a).take (b - a)

/-- A page extracted from the PDF (ingest.py `extract_text_from_pdf` items:
a dict with page_number and text). -/
structure Page where
  page_number : Nat
  text : Text
  deriving DecidableEq, Repr

/-- A chunk produced by `chunk_text` (content, page_number, chunk_index). -/
structure Chunk where
  content : Text
  page_number : Nat
  chunk_index : Nat
  deriving DecidableEq, Repr

/-- A persisted PaperChunk record (the Weaviate data_object written by
ingest.py `store_chunks`, plus its externally supplied vector). -/
structure StoredChunk where
  content : Text
  paper_id : Text
  paper_title : Text
  page_number : Nat
  chunk_index : Nat
  user_id : Text
  upload_date : Text
  vector : List Int
  deriving DecidableEq, Repr

/-- A chunk as returned by the retriever (retriever.py result dicts).
`distance` is present for similarity searches and absent for exact-match
retrieval. -/
structure RetrievedChunk where
  content : Text
  paper_id : Text
  paper_title : Text
  page_number : Nat
  chunk_index : Nat
  user_id : Text
  distance : Option Int
  deriving DecidableEq, Repr

/-- Paper info returned by `get_user_papers`. -/
structure PaperInfo where
  paper_id : Text
  paper_title : Text
  upload_date : Text
  deriving DecidableEq, Repr

/-- A source citation produced by chain.py `_extract_sources`. -/
structure Source where
  paper : Text
  page : Nat
  deriving DecidableEq, Repr

/-- The state of the external Weaviate backend as seen by one query: either
down (any call raises) or up with the current list of PaperChunk records in
natural storage order. -/
inductive Backend where
  | down : Backend
  | up : List StoredChunk → Backend

/-- Projection of a stored record to a similarity-search result dict
(retriever.py lines 74-83: content, paper_id, paper_title, page_number,
chunk_index, _additional.distance, user_id). -/
def toRetrievedD (c : StoredChunk) (d : Int) : RetrievedChunk :=
  { content := c.content, paper_id := c.paper_id, paper_title := c.paper_title
    page_number := c.page_number, chunk_index := c.chunk_index
    user_id := c.user_id, distance := some d }

/-- Projection of a stored record to an exact-match result dict
(retriever.py lines 135-143: no distance). -/
def toRetrieved (c : StoredChunk) : RetrievedChunk :=
  { content := c.content, paper_id := c.paper_id, paper_title := c.paper_title
    page_number := c.page_number, chunk_index := c.chunk_index
    user_id := c.user_id, distance := none }

/-- The where-clause used by the semantic searches: user_id Equal. -/
def whereUserEq (u : Text) (c : StoredChunk) : Bool := c.user_id == u

/-- The where-clause used by `retrieve_by_paper_id`: paper_id Equal AND
user_id Equal. -/
def wherePaperAndUser (pid u : Text) (c : StoredChunk) : Bool :=
  c.paper_id == pid && c.user_id == u

/-- Modelled from the spec: the external vector store's filtered similarity
search (spec 4.4 `searchByVector`), which the repository only invokes through
the Weaviate client (`with_near_vector` + `with_where` + `with_limit`).
The embedding provider and the cosine ranking are abstracted into an
`oracle` that scores the records matching the where-filter; the store
applies the `user_id` equality filter before ranking and truncates to
`top_k`. -/
def nearVectorSearch (oracle : Text → List StoredChunk → List (StoredChunk × Int))
    (query : Text) (s : List StoredChunk) (u : Text) (k : Nat) :
    List (StoredChunk × Int) :=
  (oracle query (s.filter (whereUserEq u))).take k

/-- retriever.py `RAGRetriever.retrieve_relevant_chunks`: embed the query,
run the filtered similarity search, project the results; on any backend
failure, catch, log and return `[]`. -/
def retrieve_relevant_chunks
    (oracle : Text → List StoredChunk → List (StoredChunk × Int))
    (bk : Backend) (query u : Text) (k : Nat) : List RetrievedChunk :=
  match bk with
  | .down => []
  | .up s => (nearVectorSearch oracle query s u k).map (fun p => toRetrievedD p.1 p.2)

/-- retriever.py `RAGRetriever.search_similar_chunks`: identical mechanics to
`retrieve_relevant_chunks`, keyed on a reference chunk content. -/
def search_similar_chunks
    (oracle : Text → List StoredChunk → List (StoredChunk × Int))
    (bk : Backend) (chunk_content u : Text) (k : Nat) : List RetrievedChunk :=
  match bk with
  | .down => []
  | .up s => (nearVectorSearch oracle chunk_content s u k).map (fun p => toRetrievedD p.1 p.2)

/-- retriever.py `RAGRetriever.retrieve_by_paper_id`: exact-match filter on
paper_id AND user_id, limited to `top_k`; on any backend failure, catch, log
and return `[]`. -/
def retrieve_by_paper_id (bk : Backend) (pid u : Text) (k : Nat) :
    List RetrievedChunk :=
  match bk with
  | .down => []
  | .up s => ((s.filter (wherePaperAndUser pid u)).take k).map toRetrieved

/-- Inner loop of retriever.py `get_user_papers`: first-seen-wins
deduplication of the scanned chunk records by paper_id. -/
def dedupPapersGo (seen : List Text) : List StoredChunk → List PaperInfo
  | [] => []
  | c :: cs =>
    if c.paper_id ∈ seen then dedupPapersGo seen cs
    else { paper_id := c.paper_id, paper_title := c.paper_title
           upload_date := c.upload_date } :: dedupPapersGo (c.paper_id :: seen) cs

/-- retriever.py `RAGRetriever.get_user_papers`: scan at most 1000 chunk
records matching the user_id filter (`with_limit(1000)`), deduplicate by
paper_id; on any backend failure, catch, log and return `[]`. -/
def get_user_papers (bk : Backend) (u : Text) : List PaperInfo :=
  match bk with
  | .down => []
  | .up s => dedupPapersGo [] ((s.filter (whereUserEq u)).take 1000)

/-! ### Ingestion (src/rag/ingest.py) -/

/-- Inner loop of ingest.py `chunk_text` (lines 137-144): for each split of
one page, keep it when non-empty after stripping, emitting the stripped
content with the page number and the running document-wide chunk index.
Returns the emitted chunks and the updated running index. -/
def emitChunks (pageNumber : Nat) : List Text → Nat → List Chunk × Nat
  | [], i => ([], i)
  | t :: ts, i =>
    if (pyStrip t).isEmpty then emitChunks pageNumber ts i
    else
      let rest := emitChunks pageNumber ts (i + 1)
      ({ content := pyStrip t, page_number := pageNumber, chunk_index := i } :: rest.1,
       rest.2)

/-- Outer loop of ingest.py `chunk_text` (lines 130-144): pages in order,
the running chunk index carried across pages (never reset). The text
splitter (`self.text_splitter.split_text`) is a parameter. -/
def chunkTextGo (split : Text → List Text) : List Page → Nat → List Chunk × Nat
  | [], i => ([], i)
  | p :: ps, i =>
    let here := emitChunks p.page_number (split p.text) i
    let rest := chunkTextGo split ps here.2
    (here.1 ++ rest.1, rest.2)

/-- ingest.py `PDFIngester.chunk_text`: split each page's text, preserving
page attribution, assigning chunk_index in emission order across the whole
document starting at 0. -/
def chunk_text (split : Text → List Text) (pages : List Page) : List Chunk :=
  (chunkTextGo split pages 0).1

/-- pdf_processor_alt.py `AlternativePDFProcessor.chunk_text`: the identical
per-page splitting loop (lines 75-96). -/
def alt_chunk_text (split : Text → List Text) (pages : List Page) : List Chunk :=
  (chunkTextGo split pages 0).1

/-- The data_object built for one chunk by ingest.py `store_chunks`
(lines 166-174), with the externally computed embedding vector. -/
def toStored (embed : Text → List Int) (pid ptitle uid udate : Text)
    (c : Chunk) : StoredChunk :=
  { content := c.content, paper_id := pid, paper_title := ptitle
    page_number := c.page_number, chunk_index := c.chunk_index
    user_id := uid, upload_date := udate, vector := embed c.content }

/-- Batches of ingest.py `store_chunks`: `chunks[i:i+50]` slices, with
`fuel` bounding the recursion (instantiated with the list length, which
always suffices). -/
def batchesOf (n : Nat) : Nat → List Chunk → List (List Chunk)
  | _, [] => []
  | 0, _ => []
  | fuel + 1, l => l.take n :: batchesOf n fuel (l.drop n)

/-- Batch loop of ingest.py `store_chunks` (lines 154-185): each batch is
written as one backend call; `writeOk b` says whether the backend call for
batch number `b` succeeds. On a failure the exception is printed and
re-raised (`raise`), leaving every previously written batch in the store:
the result is `.error` with the partial store, or `.ok` with the full one. -/
def storeChunksGo (writeOk : Nat → Bool) (embed : Text → List Int)
    (pid ptitle uid udate : Text) :
    List (List Chunk) → Nat → List StoredChunk →
    Except (List StoredChunk) (List StoredChunk)
  | [], _, st => .ok st
  | b :: bs, i, st =>
    if writeOk i then
      storeChunksGo writeOk embed pid ptitle uid udate bs (i + 1)
        (st ++ b.map (toStored embed pid ptitle uid udate))
    else .error st

/-- ingest.py `PDFIngester.store_chunks`: write the chunks in batches of 50
on top of the current store state. -/
def store_chunks (writeOk : Nat → Bool) (embed : Text → List Int)
    (chunks : List Chunk) (pid ptitle uid udate : Text)
    (st : List StoredChunk) : Except (List StoredChunk) (List StoredChunk) :=
  storeChunksGo writeOk embed pid ptitle uid udate
    (batchesOf 50 chunks.length chunks) 0 st

/-- The Weaviate schema state for the PaperChunk class: `none` when the
class does not exist, `some records` when it does. -/
abbrev SchemaState := Option (List StoredChunk)

/-- Weaviate `schema.delete_class("PaperChunk")`: removes the class together
with every object stored in it. ingest.py wraps the call in try/except, so a
failure when the class is absent is swallowed; either way the class is gone
afterwards. -/
def delete_class (_ : SchemaState) : SchemaState := none

/-- Weaviate `schema.create_class(schema)`: creates the class empty; the
already-exists exception is swallowed (`except: pass`), leaving existing
records untouched. -/
def create_class (s : SchemaState) : SchemaState :=
  match s with
  | none => some []
  | some l => some l

/-- ingest.py `PDFIngester._create_schema` (lines 47-106): unconditionally
delete the PaperChunk class, then recreate it. -/
def _create_schema (s : SchemaState) : SchemaState := create_class (delete_class s)

/-- ingest.py `PDFIngester.__init__` (lines 44-45): construction ends by
calling `_create_schema`. Only the schema-state effect is modelled. -/
def pdfIngesterInit (s : SchemaState) : SchemaState := _create_schema s

/-- The PaperChunk records held by a schema state (none when the class is
absent). -/
def chunksOf (s : SchemaState) : List StoredChunk := s.getD []

/-! ### Chain (src/rag/chain.py) -/

/-- Decimal digit character (Python's formatting of one digit). -/
def digitChar (d : Nat) : Char := Char.ofNat (48 + d)

/-- Decimal digit rendering with a structural fuel bound (the fuel is
instantiated so that it never runs out). -/
def natDigitsAux : Nat → Nat → Text
  | 0, _ => []
  | fuel + 1, n =>
    if n < 10 then [digitChar n]
    else natDigitsAux fuel (n / 10) ++ [digitChar (n % 10)]

/-- Decimal digit string of a natural number, as produced by a Python
f-string interpolating an int. -/
def natDigits (n : Nat) : Text := natDigitsAux (n + 1) n

/-- The dedup key built by chain.py `_extract_sources` (line 74):
the f-string `paper_title` ++ underscore ++ `page_number`. -/
def sourceKey (title : Text) (page : Nat) : Text := title ++ '_' :: natDigits page

/-- Loop of chain.py `_extract_sources` (lines 73-80): iterate chunks in
order, skip a chunk whose key is already in `seen_sources`, otherwise emit
its source and record the key. -/
def extractSourcesGo (seen : List Text) : List RetrievedChunk → List Source
  | [] => []
  | c :: cs =>
    if sourceKey c.paper_title c.page_number ∈ seen then extractSourcesGo seen cs
    else { paper := c.paper_title, page := c.page_number } ::
      extractSourcesGo (sourceKey c.paper_title c.page_number :: seen) cs

/-- chain.py `RAGChain._extract_sources`. -/
def _extract_sources (chunks : List RetrievedChunk) : List Source :=
  extractSourcesGo [] chunks

/-- chain.py `RAGChain._format_context` (lines 54-66), modelled coarsely:
the concatenation of each chunk's title, page rendering and content in
retrieval order (the surrounding boilerplate text is irrelevant to the
claims and omitted from the rendering). -/
def _format_context (chunks : List RetrievedChunk) : Text :=
  (chunks.map (fun c => c.paper_title ++ natDigits c.page_number ++ c.content)).flatten

/-- Result dict of chain.py `generate_response` / `generate_summary`. -/
structure ChainOut where
  answer : Text
  sources : List Source
  deriving DecidableEq, Repr

/-- The sentinel answer of chain.py `generate_response` when retrieval
returns no chunks (lines 100-104). -/
def noRelevantInfoMsg : Text :=
  ("I couldn't find any relevant information in your uploaded papers. " ++
   "Please make sure you have uploaded the papers you'd like me to analyze.").data

/-- The sentinel answer of chain.py `generate_summary` when the paper's
chunks are not found (lines 163-167). -/
def noPaperFoundMsg : Text :=
  "I couldn't find the specified paper in your uploaded documents.".data

/-- chain.py `RAGChain.generate_response` (lines 96-138), with the already
retrieved chunks and the LLM collaborator (`self.llm.invoke`) explicit. The
Boolean records whether the LLM collaborator was invoked. -/
def generate_response (llm : Text → Text → Text) (chunks : List RetrievedChunk)
    (persona query : Text) : ChainOut × Bool :=
  if chunks.isEmpty then ({ answer := noRelevantInfoMsg, sources := [] }, false)
  else
    ({ answer := llm (persona ++ _format_context chunks ++ query) query
       sources := _extract_sources chunks }, true)

/-- chain.py `RAGChain.generate_summary` (lines 159-207), with the already
retrieved chunks and the LLM collaborator explicit. -/
def generate_summary (llm : Text → Text → Text) (chunks : List RetrievedChunk)
    (persona : Text) : ChainOut × Bool :=
  if chunks.isEmpty then ({ answer := noPaperFoundMsg, sources := [] }, false)
  else
    ({ answer := llm (persona ++ _format_context chunks) []
       sources := _extract_sources chunks }, true)

/-! ### Spec-modelled text splitter (spec section 4.2)

The repository delegates page splitting to the third-party
`RecursiveCharacterTextSplitter(chunk_size=1000, chunk_overlap=200,
separators=["\n\n", "\n", " ", ""])`, whose code is not part of this
repository. The splitter below is modelled from the spec's contract. -/

/-- Modelled from the spec: chunk size target (section 4.2, ingest.py line 38). -/
def chunkSize : Nat := 1000

/-- Modelled from the spec: overlap between consecutive chunks of one page
(section 4.2, ingest.py line 39). -/
def chunkOverlap : Nat := 200

/-- A paragraph-break split point: the cut at `q` leaves a double line break
starting the next chunk. -/
def isParaAt (l : Text) (q : Nat) : Bool :=
  l.get? q == some '\n' && l.get? (q + 1) == some '\n'

/-- A line-break split point. -/
def isLineAt (l : Text) (q : Nat) : Bool := l.get? q == some '\n'

/-- A space split point. -/
def isSpaceAt (l : Text) (q : Nat) : Bool := l.get? q == some ' '

/-- Candidate cut positions strictly after `lo` and at most `hi`. -/
def cutCands (lo hi : Nat) : List Nat :=
  (List.range (hi + 1)).filter (fun q => decide (lo < q))

/-- Last element of `xs` satisfying `f`, if any. -/
def lastSat (f : Nat → Bool) (xs : List Nat) : Option Nat :=
  xs.foldl (fun acc q => if f q then some q else acc) none

/-- Modelled from the spec: the preferred cut position in `(lo, hi]` —
the largest available natural boundary (paragraph break, then line break,
then space), falling back to a hard cut at `hi` when no boundary exists in
the window (section 4.2). -/
def bestCut (l : Text) (lo hi : Nat) : Nat :=
  match lastSat (isParaAt l) (cutCands lo hi) with
  | some q => q
  | none =>
    match lastSat (isLineAt l) (cutCands lo hi) with
    | some q => q
    | none =>
      match lastSat (isSpaceAt l) (cutCands lo hi) with
      | some q => q
      | none => hi

/-- Modelled from the spec: start of the next chunk — `min chunkOverlap
(b - a)` characters before the current chunk's end, so the next chunk
repeats the current chunk's trailing overlap and the overlap never reaches
before the current chunk's start (nor across a page boundary). -/
def nextA (a b : Nat) : Nat := b - min chunkOverlap (b - a)

/-- Modelled from the spec: end of the next chunk — the whole remaining
text when it fits in the window, else the best natural cut strictly after
the current end and within `chunkSize` of the next start. -/
def nextB (l : Text) (a' b : Nat) : Nat :=
  if l.length ≤ a' + chunkSize then l.length else bestCut l b (a' + chunkSize)

/-- Modelled from the spec: the splitting loop. The state `(a, b)` is the
current chunk's character span `[a, b)` in the page text; `fuel` bounds the
recursion and is instantiated so that it never runs out. -/
def specSplitGo (l : Text) : Nat → Nat → Nat → List Text
  | 0, _, _ => []
  | fuel + 1, a, b =>
    if l.length ≤ b then [l.drop a]
    else slice l a b :: specSplitGo l fuel (nextA a b) (nextB l (nextA a b) b)

/-- Modelled from the spec: split one page's text into overlapping chunks
(section 4.2). -/
def specSplit (l : Text) : List Text :=
  specSplitGo l (l.length + 1) 0
    (if l.length ≤ chunkSize then l.length else bestCut l 0 chunkSize)

/-! ### Spec-side reference definitions (for refinement claims) -/

/-- Loop of the citation extraction as the spec words it: skip any
(paper_title, page_number) pair already emitted. -/
def specDedupGo (seen : List (Text × Nat)) : List RetrievedChunk → List Source
  | [] => []
  | c :: cs =>
    if (c.paper_title, c.page_number) ∈ seen then specDedupGo seen cs
    else { paper := c.paper_title, page := c.page_number } ::
      specDedupGo ((c.paper_title, c.page_number) :: seen) cs

/-- Citation extraction as the spec words it (spec section 4.6): iterate
chunks in order, emit one source per chunk, skipping any pair already
emitted — each distinct pair appears exactly once, in first-occurrence
order. -/
def specCitationDedup (chunks : List RetrievedChunk) : List Source :=
  specDedupGo [] chunks

/-- Coverage of a page text by a chunk list, as the spec words it (spec
section 8, "Chunk coverage"), compared modulo whitespace normalization
(`noWs`): `SpecCoverGo B cs rem` says the chunks `cs` decompose as
`overlap ++ new material`, where each chunk's overlap is (modulo
whitespace) a suffix of the previous chunk — `B` carrying the previous
chunk's normalized content — and the new-material parts concatenate
(modulo whitespace) to the still-uncovered remainder `rem` of the page. -/
inductive SpecCoverGo : Text → List Text → Text → Prop
  | nil (B : Text) : SpecCoverGo B [] []
  | cons (B c p r : Text) (cs : List Text) (remN : Text) :
      c = p ++ r → noWs p <:+ B → SpecCoverGo (noWs c) cs remN →
      SpecCoverGo B (c :: cs) (noWs r ++ remN)

/-- Coverage of a whole page by its chunk list: with `B = []` the first
chunk's removed overlap is forced to be whitespace-only, so concatenating
the first chunk with every later chunk's new material reconstructs the page
text modulo whitespace normalization. -/
def SpecCover (orig : Text) (cs : List Text) : Prop :=
  SpecCoverGo [] cs (noWs orig)

/-! ### Concrete data for witnesses and counterexample instances -/

/-- A similarity oracle that scores every candidate 0 in storage order;
sound: it only returns candidates it was given. -/
def identityOracle (_ : Text) (xs : List StoredChunk) : List (StoredChunk × Int) :=
  xs.map (fun c => (c, 0))

/-- Demo user id. -/
def uOne : Text := "u1".data

/-- Demo second user id. -/
def uTwo : Text := "u2".data

/-- Demo query text. -/
def demoQuery : Text := "what is attention".data

/-- Demo stored chunk owned by user u1. -/
def demoChunkU1 : StoredChunk :=
  { content := "alpha".data, paper_id := "pidA".data, paper_title := "PaperA".data
    page_number := 1, chunk_index := 0, user_id := uOne
    upload_date := "2024-01-01".data, vector := [1] }

/-- Demo stored chunk owned by user u2. -/
def demoChunkU2 : StoredChunk :=
  { content := "beta".data, paper_id := "pidB".data, paper_title := "PaperB".data
    page_number := 2, chunk_index := 0, user_id := uTwo
    upload_date := "2024-01-02".data, vector := [2] }

/-- Demo store populated with chunks from two different users. -/
def demoStore : List StoredChunk := [demoChunkU1, demoChunkU2]

/-- A chunk used by the partial-ingestion scenario. -/
def demoChunk : Chunk := { content := "x".data, page_number := 1, chunk_index := 0 }

/-- An ingestion of 51 chunks: two batches of sizes 50 and 1. -/
def chunks51 : List Chunk := List.replicate 51 demoChunk

/-- Backend behavior where the first batch write succeeds and the second
fails. -/
def failSecondBatch (i : Nat) : Bool := i == 0

/-- A constant embedding collaborator. -/
def zeroEmbed (_ : Text) : List Int := []

/-- Paper id used by the partial-ingestion scenario. -/
def pidA : Text := "paperA-uuid".data

/-- Paper title used by the partial-ingestion scenario. -/
def titleA : Text := "PaperA".data

/-- Upload date used by the partial-ingestion scenario. -/
def dateA : Text := "2024-01-01T00:00:00+00:00".data

/-- The partial store left behind when the second batch write fails. -/
def partialStore : List StoredChunk :=
  List.replicate 50 (toStored zeroEmbed pidA titleA uOne dateA demoChunk)

/-- Chunk of paper A for the 1000-chunk window scenario: the user's first
1000 stored chunks all belong to paper A. -/
def bigChunkA : StoredChunk :=
  { content := "a".data, paper_id := "A".data, paper_title := "Paper A".data
    page_number := 1, chunk_index := 0, user_id := uOne
    upload_date := "2024-02-01".data, vector := [] }

/-- Chunk of paper B for the 1000-chunk window scenario: stored after the
first 1000 chunks. -/
def bigChunkB : StoredChunk :=
  { content := "b".data, paper_id := "B".data, paper_title := "Paper B".data
    page_number := 1, chunk_index := 0, user_id := uOne
    upload_date := "2024-02-02".data, vector := [] }

/-- Store where user u1 owns 1001 chunks: 1000 of paper A followed by one of
paper B. -/
def bigStore : List StoredChunk := List.replicate 1000 bigChunkA ++ [bigChunkB]

/-- Paper id of paper B in the window scenario. -/
def pidB : Text := "B".data

/-- Example retrieved chunks realizing the citation pairs
(PaperA,1), (PaperA,1), (PaperA,2), (PaperB,1). -/
def exChunkA1a : RetrievedChunk :=
  { content := "c1".data, paper_id := "pA".data, paper_title := "PaperA".data
    page_number := 1, chunk_index := 0, user_id := uOne, distance := some 0 }

/-- Second chunk from page 1 of PaperA. -/
def exChunkA1b : RetrievedChunk :=
  { content := "c2".data, paper_id := "pA".data, paper_title := "PaperA".data
    page_number := 1, chunk_index := 1, user_id := uOne, distance := some 1 }

/-- Chunk from page 2 of PaperA. -/
def exChunkA2 : RetrievedChunk :=
  { content := "c3".data, paper_id := "pA".data, paper_title := "PaperA".data
    page_number := 2, chunk_index := 2, user_id := uOne, distance := some 2 }

/-- Chunk from page 1 of PaperB. -/
def exChunkB1 : RetrievedChunk :=
  { content := "c4".data, paper_id := "pB".data, paper_title := "PaperB".data
    page_number := 1, chunk_index := 0, user_id := uOne, distance := some 3 }

/-- The example chunk list of the citation-dedup claim. -/
def exampleChunks : List RetrievedChunk := [exChunkA1a, exChunkA1b, exChunkA2, exChunkB1]

/-- A splitter used by the page-attribution witness: one chunk per page. -/
def wholePageSplit (t : Text) : List Text := [t]

/-- Page used by the page-attribution witness. -/
def demoPage : Page := { page_number := 3, text := "hi".data }

/-- The chunk emitted from `demoPage` by `wholePageSplit`. -/
def demoEmitted : Chunk := { content := "hi".data, page_number := 3, chunk_index := 0 }

/-! ### Helper lemmas -/

theorem identityOracle_sound : ∀ (q : Text) (xs : List StoredChunk)
    (p : StoredChunk × Int), p ∈ identityOracle q xs → p.1 ∈ xs := by
  intro q xs p hp
  rcases List.mem_map.mp hp with ⟨c, hc, rfl⟩
  exact hc

theorem emitChunks_snd (pn : Nat) : ∀ (ts : List Text) (i : Nat),
    (emitChunks pn ts i).2 = i + (emitChunks pn ts i).1.length
  | [], i => by simp [emitChunks]
  | t :: ts, i => by
    by_cases h : (pyStrip t).isEmpty <;>
      simp [emitChunks, h, emitChunks_snd pn ts] <;> omega

theorem emitChunks_idx (pn : Nat) : ∀ (ts : List Text) (i : Nat),
    (emitChunks pn ts i).1.map Chunk.chunk_index =
      List.range' i (emitChunks pn ts i).1.length
  | [], i => by simp [emitChunks]
  | t :: ts, i => by
    by_cases h : (pyStrip t).isEmpty
    · simp [emitChunks, h, emitChunks_idx pn ts]
    · simp [emitChunks, h, emitChunks_idx pn ts, List.range'_succ]

theorem emitChunks_content (pn : Nat) : ∀ (ts : List Text) (i : Nat),
    (emitChunks pn ts i).1.map Chunk.content =
      (ts.map pyStrip).filter (fun t => !t.isEmpty)
  | [], i => by simp [emitChunks]
  | t :: ts, i => by
    by_cases h : (pyStrip t).isEmpty <;>
      simp [emitChunks, h, List.filter_cons, emitChunks_content pn ts]

theorem chunkTextGo_snd (split : Text → List Text) : ∀ (ps : List Page) (i : Nat),
    (chunkTextGo split ps i).2 = i + (chunkTextGo split ps i).1.length
  | [], i => by simp [chunkTextGo]
  | p :: ps, i => by
    simp [chunkTextGo, chunkTextGo_snd split ps, emitChunks_snd p.page_number]
    omega

theorem chunkTextGo_idx (split : Text → List Text) : ∀ (ps : List Page) (i : Nat),
    (chunkTextGo split ps i).1.map Chunk.chunk_index =
      List.range' i (chunkTextGo split ps i).1.length
  | [], i => by simp [chunkTextGo]
  | p :: ps, i => by
    have hs := emitChunks_snd p.page_number (split p.text) i
    simp [chunkTextGo, List.map_append, emitChunks_idx p.page_number,
      chunkTextGo_idx split ps, hs]
    omega

theorem chunkTextGo_content (split : Text → List Text) : ∀ (ps : List Page) (i : Nat),
    (chunkTextGo split ps i).1.map Chunk.content =
      ((ps.map (fun p => split p.text)).flatten.map pyStrip).filter (fun t => !t.isEmpty)
  | [], i => by simp [chunkTextGo]
  | p :: ps, i => by
    simp [chunkTextGo, List.map_append, emitChunks_content p.page_number,
      chunkTextGo_content split ps, List.filter_append]

/-! ### Claim theorems (simple ones first) -/

/-- C4: constructing the ingester unconditionally deletes the existing
PaperChunk schema before recreating it, so whatever the prior store state,
after construction the class holds no records: no previously stored chunk is
retrievable by paper id and no previously ingested paper is listed. -/
theorem c4_schema_wipe_on_init (s : SchemaState) (pid u uu : Text) (k : Nat) :
    chunksOf (pdfIngesterInit s) = [] ∧
    retrieve_by_paper_id (.up (chunksOf (pdfIngesterInit s))) pid u k = [] ∧
    get_user_papers (.up (chunksOf (pdfIngesterInit s))) uu = [] :=
  ⟨rfl, by simp [retrieve_by_paper_id, chunksOf, pdfIngesterInit, _create_schema,
      delete_class, create_class], rfl⟩

/-- C8: for every persona and query, when retrieval yields an empty chunk
list, `generate_response` and `generate_summary` return the fixed
no-relevant-information sentinel answer with an empty citation list and do
not invoke the LLM collaborator (the Boolean component is `false`). -/
theorem c8_empty_retrieval_short_circuit (llm : Text → Text → Text)
    (persona query : Text) :
    generate_response llm [] persona query =
      ({ answer := noRelevantInfoMsg, sources := [] }, false) ∧
    generate_summary llm [] persona =
      ({ answer := noPaperFoundMsg, sources := [] }, false) :=
  ⟨rfl, rfl⟩

/-- C2 (refuting evaluation): for every sound similarity oracle, a backend
failure (`Backend.down`) in each retrieval operation is caught and returned
as `[]`, the very value returned for a legitimately empty store
(`Backend.up []`): callers cannot distinguish a backend failure from an
empty result set, and no StoreUnavailableError reaches them. -/
theorem c2_store_errors_swallowed
    (oracle : Text → List StoredChunk → List (StoredChunk × Int))
    (h : ∀ q xs p, p ∈ oracle q xs → p.1 ∈ xs)
    (q u pid : Text) (k : Nat) :
    retrieve_relevant_chunks oracle .down q u k = [] ∧
    retrieve_relevant_chunks oracle (.up []) q u k = [] ∧
    retrieve_by_paper_id .down pid u k = [] ∧
    retrieve_by_paper_id (.up []) pid u k = [] ∧
    search_similar_chunks oracle .down q u k = [] ∧
    search_similar_chunks oracle (.up []) q u k = [] := by
  have hnil : ∀ qq, oracle qq [] = [] := fun qq =>
    List.eq_nil_iff_forall_not_mem.mpr (fun p hp => (List.not_mem_nil p.1) (h qq [] p hp))
  refine ⟨rfl, ?_, rfl, ?_, rfl, ?_⟩ <;>
    simp [retrieve_relevant_chunks, search_similar_chunks, retrieve_by_paper_id,
      nearVectorSearch, hnil]

/-- C2 witness: the refuting evaluation at a concrete oracle and inputs,
with the oracle-soundness hypothesis discharged. -/
theorem c2_store_errors_swallowed_witness :
    (∀ q xs p, p ∈ identityOracle q xs → p.1 ∈ xs) ∧
    (retrieve_relevant_chunks identityOracle .down demoQuery uOne 5 = [] ∧
     retrieve_relevant_chunks identityOracle (.up []) demoQuery uOne 5 = [] ∧
     retrieve_by_paper_id .down pidA uOne 10 = [] ∧
     retrieve_by_paper_id (.up []) pidA uOne 10 = [] ∧
     search_similar_chunks identityOracle .down demoQuery uOne 3 = [] ∧
     search_similar_chunks identityOracle (.up []) demoQuery uOne 3 = []) :=
  ⟨identityOracle_sound,
   by
    have h5 := c2_store_errors_swallowed identityOracle identityOracle_sound
      demoQuery uOne pidA 5
    have h10 := c2_store_errors_swallowed identityOracle identityOracle_sound
      demoQuery uOne pidA 10
    have h3 := c2_store_errors_swallowed identityOracle identityOracle_sound
      demoQuery uOne pidA 3
    exact ⟨h5.1, h5.2.1, h10.2.2.1, h10.2.2.2.1, h3.2.2.2.2.1, h3.2.2.2.2.2⟩⟩

/-- C5: for every splitter and every ordered list of pages, the emitted
chunks' `chunk_index` values are exactly `0..N-1` (assigned in emission
order across the whole document, contiguous and strictly increasing), and
the emitted contents are exactly the page splits that are non-empty after
trimming, in order — an empty-after-trim split is discarded without
consuming an index. -/
theorem c5_chunk_index_contiguous (split : Text → List Text) (pages : List Page) :
    (chunk_text split pages).map Chunk.chunk_index =
      List.range (chunk_text split pages).length ∧
    (chunk_text split pages).map Chunk.content =
      ((pages.map (fun p => split p.text)).flatten.map pyStrip).filter
        (fun t => !t.isEmpty) := by
  constructor
  · rw [List.range_eq_range']
    exact chunkTextGo_idx split pages 0
  · exact chunkTextGo_content split pages 0

/-- C1: for every sound similarity oracle (one that only returns candidate
records it was given), every backend state, query and limit, each chunk
returned by `retrieve_relevant_chunks` or `search_similar_chunks` issued
with user id `u` has stored `user_id` equal to `u`: no chunk owned by a
different user ever appears in the result. -/
theorem c1_user_isolation
    (oracle : Text → List StoredChunk → List (StoredChunk × Int))
    (h : ∀ q xs p, p ∈ oracle q xs → p.1 ∈ xs)
    (bk : Backend) (q u : Text) (k : Nat) (c : RetrievedChunk) :
    (c ∈ retrieve_relevant_chunks oracle bk q u k → c.user_id = u) ∧
    (c ∈ search_similar_chunks oracle bk q u k → c.user_id = u) := by
  cases bk with
  | down =>
    exact ⟨fun hc => absurd hc (List.not_mem_nil c),
           fun hc => absurd hc (List.not_mem_nil c)⟩
  | up s =>
    constructor <;> intro hc
    all_goals
      simp only [retrieve_relevant_chunks, search_similar_chunks,
        nearVectorSearch, List.mem_map] at hc
    all_goals
      rcases hc with ⟨p, hp, rfl⟩
    all_goals
      have hp' : p ∈ oracle q (s.filter (whereUserEq u)) := List.mem_of_mem_take hp
    all_goals
      have h1 : p.1 ∈ s.filter (whereUserEq u) := h q _ p hp'
    all_goals
      have h2 := (List.mem_filter.mp h1).2
    all_goals
      simp only [whereUserEq, beq_iff_eq] at h2
    all_goals
      simpa [toRetrievedD] using h2

/-- C1 witness: the isolation theorem applied at a concrete store populated
with chunks from two users, with the oracle-soundness hypothesis and the
membership hypothesis discharged on concrete data. -/
theorem c1_user_isolation_witness :
    ((∀ q xs p, p ∈ identityOracle q xs → p.1 ∈ xs) ∧
     toRetrievedD demoChunkU1 0 ∈
       retrieve_relevant_chunks identityOracle (.up demoStore) demoQuery uOne 5) ∧
    (toRetrievedD demoChunkU1 0).user_id = uOne :=
  ⟨⟨identityOracle_sound, by decide⟩,
   (c1_user_isolation identityOracle identityOracle_sound (.up demoStore)
      demoQuery uOne 5 (toRetrievedD demoChunkU1 0)).1 (by decide)⟩

theorem emitChunks_mem (pn : Nat) : ∀ (ts : List Text) (i : Nat) (c : Chunk),
    c ∈ (emitChunks pn ts i).1 →
    c.page_number = pn ∧ ∃ t, t ∈ ts ∧ c.content = pyStrip t
  | [], i, c, hc => by simp [emitChunks] at hc
  | t :: ts, i, c, hc => by
    by_cases h : (pyStrip t).isEmpty
    · simp only [emitChunks, h, if_pos] at hc
      rcases emitChunks_mem pn ts i c hc with ⟨h1, tt, ht, h2⟩
      exact ⟨h1, tt, List.mem_cons_of_mem _ ht, h2⟩
    · simp only [emitChunks, h, if_neg, Bool.false_eq_true, not_false_iff,
        List.mem_cons] at hc
      rcases hc with rfl | hc
      · exact ⟨rfl, t, List.mem_cons_self _ _, rfl⟩
      · rcases emitChunks_mem pn ts (i + 1) c hc with ⟨h1, tt, ht, h2⟩
        exact ⟨h1, tt, List.mem_cons_of_mem _ ht, h2⟩

theorem chunkTextGo_mem (split : Text → List Text) :
    ∀ (ps : List Page) (i : Nat) (c : Chunk), c ∈ (chunkTextGo split ps i).1 →
    ∃ p, p ∈ ps ∧ c.page_number = p.page_number ∧
      ∃ t, t ∈ split p.text ∧ c.content = pyStrip t
  | [], i, c, hc => by simp [chunkTextGo] at hc
  | p :: ps, i, c, hc => by
    simp only [chunkTextGo, List.mem_append] at hc
    rcases hc with hc | hc
    · rcases emitChunks_mem p.page_number (split p.text) i c hc with ⟨h1, t, ht, h2⟩
      exact ⟨p, List.mem_cons_self _ _, h1, t, ht, h2⟩
    · rcases chunkTextGo_mem split ps _ c hc with ⟨pp, hpp, h1, t, ht, h2⟩
      exact ⟨pp, List.mem_cons_of_mem _ hpp, h1, t, ht, h2⟩

/-- C6: for every splitter, every page list and every chunk emitted by
`chunk_text` (ingest.py) or by the identical `chunk_text` of
pdf_processor_alt.py, the chunk's `page_number` is the page number of the
single source page whose text was split, and its content is one split of
that page's text (stripped): no chunk aggregates text from two pages, and
overlap never crosses a page boundary. -/
theorem c6_page_attribution (split : Text → List Text) (pages : List Page)
    (c : Chunk) :
    (c ∈ chunk_text split pages →
      ∃ p, p ∈ pages ∧ c.page_number = p.page_number ∧
        ∃ t, t ∈ split p.text ∧ c.content = pyStrip t) ∧
    (c ∈ alt_chunk_text split pages →
      ∃ p, p ∈ pages ∧ c.page_number = p.page_number ∧
        ∃ t, t ∈ split p.text ∧ c.content = pyStrip t) :=
  ⟨fun hc => chunkTextGo_mem split pages 0 c hc,
   fun hc => chunkTextGo_mem split pages 0 c hc⟩

/-- C6 witness: the page-attribution theorem applied to a concrete one-page
document, with the membership hypothesis discharged by evaluation. -/
theorem c6_page_attribution_witness :
    ∃ p, p ∈ [demoPage] ∧ demoEmitted.page_number = p.page_number ∧
      ∃ t, t ∈ wholePageSplit p.text ∧ demoEmitted.content = pyStrip t :=
  (c6_page_attribution wholePageSplit [demoPage] demoEmitted).1 (by decide)

/-- C3 (refuting evaluation): ingestion is not atomic per paper. For a
paper of 51 chunks whose second batch write fails, `store_chunks` raises
(`.error`) while leaving the 50 chunks of the first batch in the store — a
nonempty, incomplete chunk set carrying the ingestion's paper_id, still
discoverable through `retrieve_by_paper_id`. -/
theorem c3_partial_ingestion_persists :
    store_chunks failSecondBatch zeroEmbed chunks51 pidA titleA uOne dateA [] =
      .error partialStore ∧
    partialStore.length = 50 ∧ chunks51.length = 51 ∧
    (∀ c ∈ partialStore, c.paper_id = pidA) ∧
    retrieve_by_paper_id (.up partialStore) pidA uOne 10 ≠ [] := by
  have hb : batchesOf 50 chunks51.length chunks51 =
      [List.replicate 50 demoChunk, [demoChunk]] := rfl
  refine ⟨?_, by simp [partialStore], by simp [chunks51], ?_, ?_⟩
  · rw [store_chunks, hb]
    simp [storeChunksGo, failSecondBatch, partialStore, List.map_replicate]
  · intro c hc
    rw [partialStore] at hc
    rw [List.eq_of_mem_replicate hc]
    rfl
  · have hw : wherePaperAndUser pidA uOne
        (toStored zeroEmbed pidA titleA uOne dateA demoChunk) = true := rfl
    simp only [retrieve_by_paper_id, partialStore, List.filter_replicate,
      if_pos hw, List.take_replicate, List.map_replicate, ne_eq,
      List.replicate_eq_nil_iff]
    decide

/-- C10: `get_user_papers` derives its result from at most the first 1000
chunk records matching the user filter (first conjunct), and on a concrete
store where user u1 owns 1001 chunks — 1000 of paper A followed by one of
paper B — paper B is absent from the returned list even though its chunk
exists and is returned by `retrieve_by_paper_id`. -/
theorem c10_user_papers_window :
    (∀ (s : List StoredChunk) (u : Text),
      get_user_papers (.up s) u =
        get_user_papers (.up ((s.filter (whereUserEq u)).take 1000)) u) ∧
    (bigStore.filter (whereUserEq uOne)).length = 1001 ∧
    pidB ∉ (get_user_papers (.up bigStore) uOne).map PaperInfo.paper_id ∧
    retrieve_by_paper_id (.up bigStore) pidB uOne 10 ≠ [] := by
  have hA : whereUserEq uOne bigChunkA = true := rfl
  have hB : whereUserEq uOne bigChunkB = true := rfl
  have hfilter : bigStore.filter (whereUserEq uOne) = bigStore := by
    unfold bigStore
    rw [List.filter_append, List.filter_replicate, if_pos hA,
      List.filter_cons_of_pos hB, List.filter_nil]
  refine ⟨?_, ?_, ?_, ?_⟩
  · intro s u
    have hself : ((s.filter (whereUserEq u)).take 1000).filter (whereUserEq u) =
        (s.filter (whereUserEq u)).take 1000 :=
      List.filter_eq_self.mpr
        (fun a ha => (List.mem_filter.mp (List.mem_of_mem_take ha)).2)
    simp only [get_user_papers, hself, List.take_take]
    rw [min_self]
  · rw [hfilter]
    unfold bigStore
    rw [List.length_append, List.length_replicate]
    rfl
  · have htake : bigStore.take 1000 = List.replicate 1000 bigChunkA := by
      unfold bigStore
      exact List.take_left' (by rw [List.length_replicate])
    have hseen : ∀ (n : Nat) (seen : List Text), bigChunkA.paper_id ∈ seen →
        dedupPapersGo seen (List.replicate n bigChunkA) = [] := by
      intro n
      induction n with
      | zero => intro seen _; rfl
      | succ m ih =>
        intro seen h
        rw [List.replicate_succ]
        simp only [dedupPapersGo]
        rw [if_pos h]
        exact ih seen h
    have h1000 : ∀ (n : Nat), dedupPapersGo [] (List.replicate (n + 1) bigChunkA) =
        [{ paper_id := bigChunkA.paper_id, paper_title := bigChunkA.paper_title
           upload_date := bigChunkA.upload_date }] := by
      intro n
      rw [List.replicate_succ]
      simp only [dedupPapersGo]
      rw [if_neg (List.not_mem_nil _)]
      rw [hseen n _ (List.mem_cons_self _ _)]
    rw [get_user_papers, hfilter, htake]
    rw [show (1000 : Nat) = 999 + 1 from rfl, h1000 999]
    decide
  · have hBneg : ¬ wherePaperAndUser pidB uOne bigChunkA = true := by
      intro h
      exact absurd h (by decide)
    have hBtrue : wherePaperAndUser pidB uOne bigChunkB = true := rfl
    simp only [retrieve_by_paper_id]
    unfold bigStore
    rw [List.filter_append, List.filter_replicate, if_neg hBneg,
      List.filter_cons_of_pos hBtrue, List.filter_nil, List.nil_append]
    decide

theorem digitChar_ne_underscore : ∀ d : Nat, d < 10 → digitChar d ≠ '_' := by decide

theorem digitChar_injOn : ∀ a : Nat, a < 10 → ∀ b : Nat, b < 10 →
    digitChar a = digitChar b → a = b := by decide

theorem natDigitsAux_congr : ∀ (n f1 f2 : Nat), n < f1 → n < f2 →
    natDigitsAux f1 n = natDigitsAux f2 n := by
  intro n
  induction n using Nat.strong_induction_on with
  | _ n ih =>
    intro f1 f2 h1 h2
    cases f1 with
    | zero => omega
    | succ g1 =>
      cases f2 with
      | zero => omega
      | succ g2 =>
        by_cases h : n < 10
        · simp [natDigitsAux, h]
        · simp only [natDigitsAux, if_neg h]
          congr 1
          exact ih (n / 10) (by omega) g1 g2 (by omega) (by omega)

theorem natDigits_lt {n : Nat} (h : n < 10) : natDigits n = [digitChar n] := by
  rw [natDigits]
  simp [natDigitsAux, h]

theorem natDigits_ge {n : Nat} (h : ¬ n < 10) :
    natDigits n = natDigits (n / 10) ++ [digitChar (n % 10)] := by
  rw [natDigits, natDigits]
  simp only [natDigitsAux, if_neg h]
  congr 1
  exact natDigitsAux_congr (n / 10) n (n / 10 + 1) (by omega) (by omega)

theorem natDigits_ne_nil (n : Nat) : natDigits n ≠ [] := by
  by_cases h : n < 10
  · rw [natDigits_lt h]
    simp
  · rw [natDigits_ge h]
    simp

theorem natDigits_no_underscore : ∀ (n : Nat) (c : Char), c ∈ natDigits n → c ≠ '_' := by
  intro n
  induction n using Nat.strong_induction_on with
  | _ n ih =>
    intro c hc
    by_cases h : n < 10
    · rw [natDigits_lt h] at hc
      simp only [List.mem_singleton] at hc
      subst hc
      exact digitChar_ne_underscore n h
    · rw [natDigits_ge h] at hc
      rcases List.mem_append.mp hc with h1 | h2
      · exact ih (n / 10) (Nat.div_lt_self (by omega) (by omega)) c h1
      · simp only [List.mem_singleton] at h2
        subst h2
        exact digitChar_ne_underscore (n % 10) (Nat.mod_lt _ (by omega))

theorem natDigits_inj : ∀ (m n : Nat), natDigits m = natDigits n → m = n := by
  intro m
  induction m using Nat.strong_induction_on with
  | _ m ih =>
    intro n h
    by_cases hm : m < 10 <;> by_cases hn : n < 10
    · rw [natDigits_lt hm, natDigits_lt hn] at h
      simp only [List.cons.injEq] at h
      exact digitChar_injOn m hm n hn h.1
    · rw [natDigits_lt hm, natDigits_ge hn] at h
      have hlen := congrArg List.length h
      simp only [List.length_singleton, List.length_append] at hlen
      have : natDigits (n / 10) = [] :=
        List.length_eq_zero.mp (by omega)
      exact absurd this (natDigits_ne_nil _)
    · rw [natDigits_ge hm, natDigits_lt hn] at h
      have hlen := congrArg List.length h
      simp only [List.length_singleton, List.length_append] at hlen
      have : natDigits (m / 10) = [] :=
        List.length_eq_zero.mp (by omega)
      exact absurd this (natDigits_ne_nil _)
    · rw [natDigits_ge hm, natDigits_ge hn] at h
      rcases List.append_inj' h (by simp) with ⟨h1, h2⟩
      have hd : m / 10 = n / 10 :=
        ih (m / 10) (Nat.div_lt_self (by omega) (by omega)) (n / 10) h1
      simp only [List.cons.injEq] at h2
      have hr : m % 10 = n % 10 :=
        digitChar_injOn (m % 10) (Nat.mod_lt _ (by omega)) (n % 10)
          (Nat.mod_lt _ (by omega)) h2.1
      omega

theorem marker_split : ∀ (u1 v1 u2 v2 : Text),
    (∀ c ∈ u1, c ≠ '_') → (∀ c ∈ u2, c ≠ '_') →
    u1 ++ '_' :: v1 = u2 ++ '_' :: v2 → u1 = u2 ∧ v1 = v2 := by
  intro u1
  induction u1 with
  | nil =>
    intro v1 u2 v2 _ h2 heq
    cases u2 with
    | nil => simpa using heq
    | cons d u2' =>
      simp only [List.nil_append, List.cons_append, List.cons.injEq] at heq
      exact absurd heq.1.symm (h2 d (List.mem_cons_self _ _))
  | cons c u1' ih =>
    intro v1 u2 v2 h1 h2 heq
    cases u2 with
    | nil =>
      simp only [List.cons_append, List.nil_append, List.cons.injEq] at heq
      exact absurd heq.1 (h1 c (List.mem_cons_self _ _))
    | cons d u2' =>
      simp only [List.cons_append, List.cons.injEq] at heq
      rcases heq with ⟨rfl, htail⟩
      rcases ih v1 u2' v2 (fun x hx => h1 x (List.mem_cons_of_mem _ hx))
        (fun x hx => h2 x (List.mem_cons_of_mem _ hx)) htail with ⟨hu, hv⟩
      exact ⟨by rw [hu], hv⟩

theorem sourceKey_inj (t1 t2 : Text) (p1 p2 : Nat) :
    sourceKey t1 p1 = sourceKey t2 p2 → t1 = t2 ∧ p1 = p2 := by
  intro h
  have h' := congrArg List.reverse h
  simp only [sourceKey, List.reverse_append, List.reverse_cons, List.append_assoc,
    List.singleton_append] at h'
  rcases marker_split (natDigits p1).reverse t1.reverse (natDigits p2).reverse t2.reverse
      (fun c hc => natDigits_no_underscore p1 c (List.mem_reverse.mp hc))
      (fun c hc => natDigits_no_underscore p2 c (List.mem_reverse.mp hc)) h'
    with ⟨hd, ht⟩
  exact ⟨List.reverse_injective ht,
    natDigits_inj p1 p2 (List.reverse_injective hd)⟩

theorem extractGo_eq_specGo : ∀ (chunks : List RetrievedChunk)
    (seen : List (Text × Nat)),
    extractSourcesGo (seen.map (fun pr => sourceKey pr.1 pr.2)) chunks =
      specDedupGo seen chunks := by
  intro chunks
  induction chunks with
  | nil => intro seen; rfl
  | cons c cs ih =>
    intro seen
    by_cases h : (c.paper_title, c.page_number) ∈ seen
    · have hk : sourceKey c.paper_title c.page_number ∈
          seen.map (fun pr => sourceKey pr.1 pr.2) :=
        List.mem_map_of_mem _ h
      simp only [extractSourcesGo, specDedupGo, if_pos h, if_pos hk]
      exact ih seen
    · have hk : sourceKey c.paper_title c.page_number ∉
          seen.map (fun pr => sourceKey pr.1 pr.2) := by
        intro hmem
        rcases List.mem_map.mp hmem with ⟨pr, hpr, heq⟩
        rcases sourceKey_inj pr.1 c.paper_title pr.2 c.page_number heq with ⟨ht, hp⟩
        have : pr = (c.paper_title, c.page_number) := Prod.ext ht hp
        exact h (this ▸ hpr)
      simp only [extractSourcesGo, specDedupGo, if_neg h, if_neg hk]
      exact congrArg _ (ih ((c.paper_title, c.page_number) :: seen))

/-- C7: citation extraction equals pair-based first-occurrence
deduplication — each distinct (paper_title, page_number) pair appears
exactly once, in first-occurrence order (the underscore-joined dedup key is
injective because the page digits contain no underscore) — and on the
example chunks [(PaperA,1), (PaperA,1), (PaperA,2), (PaperB,1)] it yields
exactly [(PaperA,1), (PaperA,2), (PaperB,1)]. -/
theorem c7_citation_dedup :
    (∀ chunks : List RetrievedChunk,
      _extract_sources chunks = specCitationDedup chunks) ∧
    _extract_sources exampleChunks =
      [{ paper := exChunkA1a.paper_title, page := 1 },
       { paper := exChunkA2.paper_title, page := 2 },
       { paper := exChunkB1.paper_title, page := 1 }] := by
  constructor
  · intro chunks
    exact extractGo_eq_specGo chunks []
  · decide

theorem noWs_append (a b : Text) : noWs (a ++ b) = noWs a ++ noWs b :=
  List.filter_append a b

theorem noWs_suffix {a b : Text} (h : a <:+ b) : noWs a <:+ noWs b := by
  obtain ⟨t, rfl⟩ := h
  rw [noWs_append]
  exact List.suffix_append _ _

theorem noWs_dropWhile (l : Text) : noWs (l.dropWhile isWs) = noWs l := by
  conv_rhs => rw [← List.takeWhile_append_dropWhile isWs l]
  rw [noWs_append]
  have h : noWs (l.takeWhile isWs) = [] := by
    rw [noWs, List.filter_eq_nil_iff]
    intro a ha
    simp [List.mem_takeWhile_imp ha]
  rw [h, List.nil_append]

theorem noWs_reverse (l : Text) : noWs l.reverse = (noWs l).reverse :=
  List.filter_reverse _ _

theorem noWs_ltrim (l : Text) : noWs (ltrim l) = noWs l := noWs_dropWhile l

theorem noWs_rtrim (l : Text) : noWs (rtrim l) = noWs l := by
  rw [rtrim, noWs_reverse, noWs_dropWhile, noWs_reverse, List.reverse_reverse]

theorem noWs_pyStrip (l : Text) : noWs (pyStrip l) = noWs l := by
  rw [pyStrip, noWs_rtrim, noWs_ltrim]

theorem noWs_split : ∀ (c x y : Text), noWs c = x ++ y →
    ∃ p r, c = p ++ r ∧ noWs p = x ∧ noWs r = y := by
  intro c
  induction c with
  | nil =>
    intro x y h
    have h0 : x ++ y = [] := h.symm
    rcases List.append_eq_nil.mp h0 with ⟨rfl, rfl⟩
    exact ⟨[], [], rfl, rfl, rfl⟩
  | cons ch c' ih =>
    intro x y h
    by_cases hws : isWs ch
    · have hnc : noWs (ch :: c') = noWs c' := by
        simp [noWs, List.filter_cons, hws]
      rw [hnc] at h
      rcases ih x y h with ⟨p, r, rfl, hp, hr⟩
      refine ⟨ch :: p, r, rfl, ?_, hr⟩
      rw [show noWs (ch :: p) = noWs p from by simp [noWs, List.filter_cons, hws], hp]
    · have hnc : noWs (ch :: c') = ch :: noWs c' := by
        simp [noWs, List.filter_cons, hws]
      rw [hnc] at h
      cases x with
      | nil =>
        refine ⟨[], ch :: c', rfl, rfl, ?_⟩
        rw [hnc]
        simpa using h
      | cons xc x' =>
        simp only [List.cons_append, List.cons.injEq] at h
        rcases h with ⟨rfl, h2⟩
        rcases ih x' y h2 with ⟨p, r, rfl, hp, hr⟩
        refine ⟨ch :: p, r, rfl, ?_, hr⟩
        rw [show noWs (ch :: p) = ch :: noWs p from by
          simp [noWs, List.filter_cons, hws], hp]

theorem slice_add (l : Text) (a m b : Nat) (h1 : a ≤ m) (h2 : m ≤ b) :
    slice l a m ++ slice l m b = slice l a b := by
  rw [slice, slice, slice]
  have hd : l.drop m = (l.drop a).drop (m - a) := by
    rw [List.drop_drop]
    congr 1
    omega
  rw [hd, ← List.take_add]
  congr 1
  omega

theorem slice_drop (l : Text) (a m : Nat) (h : a ≤ m) :
    slice l a m ++ l.drop m = l.drop a := by
  rw [slice]
  have hd : l.drop m = (l.drop a).drop (m - a) := by
    rw [List.drop_drop]
    congr 1
    omega
  rw [hd, List.take_append_drop]

theorem slice_suffix (l : Text) (a a' b : Nat) (h1 : a ≤ a') (h2 : a' ≤ b) :
    slice l a' b <:+ slice l a b := by
  rw [← slice_add l a a' b h1 h2]
  exact List.suffix_append _ _

theorem drop_suffix_drop (l : Text) (a m : Nat) (h : a ≤ m) :
    l.drop m <:+ l.drop a := by
  rw [← slice_drop l a m h]
  exact List.suffix_append _ _

theorem lastSat_mem_aux (f : Nat → Bool) : ∀ (xs : List Nat) (acc : Option Nat)
    (q : Nat), xs.foldl (fun acc q => if f q then some q else acc) acc = some q →
    q ∈ xs ∨ acc = some q := by
  intro xs
  induction xs with
  | nil => intro acc q h; exact Or.inr h
  | cons x xs ih =>
    intro acc q h
    simp only [List.foldl_cons] at h
    rcases ih _ q h with hmem | hacc
    · exact Or.inl (List.mem_cons_of_mem _ hmem)
    · by_cases hf : f x
      · rw [if_pos hf] at hacc
        exact Or.inl (by rw [← Option.some.inj hacc]; exact List.mem_cons_self _ _)
      · rw [if_neg hf] at hacc
        exact Or.inr hacc

theorem mem_cutCands {lo hi q : Nat} (h : q ∈ cutCands lo hi) : lo < q ∧ q ≤ hi := by
  rw [cutCands] at h
  rcases List.mem_filter.mp h with ⟨hr, hq⟩
  rw [List.mem_range] at hr
  exact ⟨of_decide_eq_true hq, by omega⟩

theorem lastSat_bounds {f : Nat → Bool} {lo hi q : Nat}
    (h : lastSat f (cutCands lo hi) = some q) : lo < q ∧ q ≤ hi := by
  rw [lastSat] at h
  rcases lastSat_mem_aux f (cutCands lo hi) none q h with hm | hnone
  · exact mem_cutCands hm
  · cases hnone

theorem bestCut_bounds (l : Text) {lo hi : Nat} (h : lo < hi) :
    lo < bestCut l lo hi ∧ bestCut l lo hi ≤ hi := by
  unfold bestCut
  split
  · exact lastSat_bounds (by assumption)
  · split
    · exact lastSat_bounds (by assumption)
    · split
      · exact lastSat_bounds (by assumption)
      · exact ⟨h, Nat.le_refl hi⟩

theorem specStep (l : Text) {a b : Nat} (hab : a ≤ b) (hb : b < l.length)
    (hwin : b ≤ a + chunkSize) :
    a ≤ nextA a b ∧ nextA a b ≤ b ∧ b < nextB l (nextA a b) b ∧
    nextB l (nextA a b) b ≤ l.length ∧
    nextB l (nextA a b) b ≤ nextA a b + chunkSize := by
  have hmn1 : min chunkOverlap (b - a) ≤ chunkOverlap := Nat.min_le_left _ _
  have hmn2 : min chunkOverlap (b - a) ≤ b - a := Nat.min_le_right _ _
  have hco : chunkOverlap = 200 := rfl
  have hcs : chunkSize = 1000 := rfl
  have hlt : b < nextA a b + chunkSize := by rw [nextA]; omega
  refine ⟨by rw [nextA]; omega, by rw [nextA]; omega, ?_, ?_, ?_⟩
  · rw [nextB]
    split
    · exact hb
    · exact (bestCut_bounds l hlt).1
  · rw [nextB]
    split
    · exact Nat.le_refl _
    · rename_i hc
      have := (bestCut_bounds l hlt).2
      omega
  · rw [nextB]
    split
    · assumption
    · exact (bestCut_bounds l hlt).2

theorem specCover_main (l : Text) : ∀ (fuel a b m : Nat) (B : Text),
    l.length - b < fuel → a ≤ m → m ≤ b → b ≤ l.length → b ≤ a + chunkSize →
    noWs (slice l a m) <:+ B →
    SpecCoverGo B (((specSplitGo l fuel a b).map pyStrip).filter
      (fun t => !t.isEmpty)) (noWs (l.drop m)) := by
  intro fuel
  induction fuel with
  | zero => intro a b m B hf; omega
  | succ g ih =>
    intro a b m B hf ham hmb hblen hwin hB
    by_cases hle : l.length ≤ b
    · simp only [specSplitGo, if_pos hle, List.map_cons, List.map_nil,
        List.filter_cons, List.filter_nil]
      by_cases he : (pyStrip (l.drop a)).isEmpty
      · have hempty : noWs (l.drop a) = [] := by
          rw [← noWs_pyStrip, List.isEmpty_iff.mp he]
          rfl
        have hm0 : noWs (l.drop m) = [] := by
          have hs : noWs (l.drop m) <:+ noWs (l.drop a) :=
            noWs_suffix (drop_suffix_drop l a m ham)
          rw [hempty] at hs
          exact List.suffix_nil.mp hs
        rw [he, hm0]
        exact SpecCoverGo.nil B
      · have hsplit : noWs (pyStrip (l.drop a)) =
            noWs (slice l a m) ++ noWs (l.drop m) := by
          rw [noWs_pyStrip, ← slice_drop l a m ham, noWs_append]
        rcases noWs_split _ _ _ hsplit with ⟨p, r, hpr, hp, hr⟩
        have hcond : (!(pyStrip (l.drop a)).isEmpty) = true := by
          rcases hx : (pyStrip (l.drop a)).isEmpty
          · rfl
          · exact absurd hx he
        rw [if_pos hcond]
        rw [show noWs (l.drop m) = noWs r ++ [] from by rw [hr, List.append_nil]]
        exact SpecCoverGo.cons B (pyStrip (l.drop a)) p r [] [] hpr (hp ▸ hB)
          (SpecCoverGo.nil _)
    · have hb : b < l.length := by omega
      obtain ⟨hA1, hA2, hb', hlen', hwin'⟩ := specStep l (le_trans ham hmb) hb hwin
      simp only [specSplitGo, if_neg hle, List.map_cons, List.filter_cons]
      have hdm : noWs (l.drop m) = noWs (slice l m b) ++ noWs (l.drop b) := by
        rw [← noWs_append, slice_drop l m b hmb]
      by_cases he : (pyStrip (slice l a b)).isEmpty
      · have hempty : noWs (slice l a b) = [] := by
          rw [← noWs_pyStrip, List.isEmpty_iff.mp he]
          rfl
        have hsub : noWs (slice l (nextA a b) b) = [] := by
          have hs : noWs (slice l (nextA a b) b) <:+ noWs (slice l a b) :=
            noWs_suffix (slice_suffix l a (nextA a b) b hA1 hA2)
          rw [hempty] at hs
          exact List.suffix_nil.mp hs
        have hmb0 : noWs (slice l m b) = [] := by
          have hs : noWs (slice l m b) <:+ noWs (slice l a b) :=
            noWs_suffix (slice_suffix l a m b ham hmb)
          rw [hempty] at hs
          exact List.suffix_nil.mp hs
        rw [he]
        rw [show noWs (l.drop m) = noWs (l.drop b) from by
          rw [hdm, hmb0, List.nil_append]]
        exact ih (nextA a b) (nextB l (nextA a b) b) b B (by omega) hA2
          (Nat.le_of_lt hb') hlen' hwin' (by rw [hsub]; exact List.nil_suffix)
      · have hsplit : noWs (pyStrip (slice l a b)) =
            noWs (slice l a m) ++ noWs (slice l m b) := by
          rw [noWs_pyStrip, ← slice_add l a m b ham hmb, noWs_append]
        rcases noWs_split _ _ _ hsplit with ⟨p, r, hpr, hp, hr⟩
        have hrec := ih (nextA a b) (nextB l (nextA a b) b) b
          (noWs (pyStrip (slice l a b))) (by omega) hA2 (Nat.le_of_lt hb')
          hlen' hwin'
          (by
            rw [noWs_pyStrip]
            exact noWs_suffix (slice_suffix l a (nextA a b) b hA1 hA2))
        have hcond : (!(pyStrip (slice l a b)).isEmpty) = true := by
          rcases hx : (pyStrip (slice l a b)).isEmpty
          · rfl
          · exact absurd hx he
        rw [if_pos hcond]
        rw [show noWs (l.drop m) = noWs r ++ noWs (l.drop b) from by
          rw [hdm, hr]]
        exact SpecCoverGo.cons B (pyStrip (slice l a b)) p r _ _ hpr (hp ▸ hB) hrec

/-- C9: for every page, the chunks emitted for that page by `chunk_text`
with the spec-modelled splitter cover the page text: each chunk after the
first decomposes into an overlap prefix — a repetition (modulo whitespace)
of a suffix of the previous chunk — and new material, and the first chunk
followed by all the new-material parts reconstructs the page text modulo
whitespace normalization. -/
theorem c9_chunk_coverage (pn : Nat) (txt : Text) :
    SpecCover txt ((chunk_text specSplit
      [{ page_number := pn, text := txt }]).map Chunk.content) := by
  have hcontent : (chunk_text specSplit [{ page_number := pn, text := txt }]).map
      Chunk.content = ((specSplit txt).map pyStrip).filter (fun t => !t.isEmpty) := by
    rw [chunk_text]
    simp only [chunkTextGo]
    rw [List.append_nil]
    exact emitChunks_content pn (specSplit txt) 0
  rw [hcontent]
  unfold SpecCover
  rw [specSplit]
  have hb0 : (if txt.length ≤ chunkSize then txt.length
      else bestCut txt 0 chunkSize) ≤ txt.length ∧
      (if txt.length ≤ chunkSize then txt.length
      else bestCut txt 0 chunkSize) ≤ chunkSize := by
    split
    · constructor
      · exact Nat.le_refl _
      · assumption
    · have := bestCut_bounds txt (show 0 < chunkSize by decide)
      omega
  have hmain := specCover_main txt (txt.length + 1) 0
    (if txt.length ≤ chunkSize then txt.length else bestCut txt 0 chunkSize) 0 []
    (by omega) (Nat.le_refl 0) (Nat.zero_le _) hb0.1 (by
      have := hb0.2
      omega) (by
      rw [show slice txt 0 0 = [] from by rw [slice]; simp]
      exact List.nil_suffix)
  simpa using hmain

end RPB
